import Mathlib

/-!
Verification of the Deltamed Coherence open utilities (EEG header
anonymisation toolkit).

The development shallowly embeds the Python sources:
  * `utils.py`   — `extract_header`, `change_field`, `anonymise_eeg`,
                   `find_files`;
  * `anonymiser.py` — the line-based `extract_header` variant and the
                   batch loop of `main`.

Files are modelled as lists of byte values (`List Nat`, each entry < 256
in real runs; the development never depends on the bound).  The
filesystem is modelled as a partial map from path strings to file
contents.  Directory creation (`ensure_path`) has no observable effect
in this byte-level model and is not modelled.  Python raises
`IndexError` when `change_field` writes past the end of the buffer; the
model leaves positions beyond the buffer length unwritten (the buffer
length is always preserved).  Every verified statement keeps the writes
within bounds, matching the runs on which Python succeeds.
-/

namespace Deltamed

/-- Embedding of `utils.py::extract_header`: read the first 720 bytes of
the file (fewer when the file is shorter); no error is raised for short
files. -/
def extract_header (file : List Nat) : List Nat :=
  file.take 720

/-- Embedding of `anonymiser.py::extract_header`: iterate over the lines
of the file, accumulating them; as soon as the accumulator is longer
than 719 bytes it is returned; when the file ends first the function
falls off the loop and returns Python's implicit `None`.  The file is
given as its decomposition into lines (the chunks produced by iterating
a binary file handle). -/
def extract_header_lines : List (List Nat) → List Nat → Option (List Nat)
  | [], _ => none
  | l :: rest, acc =>
      let acc' := acc ++ l
      if 719 < acc'.length then some acc' else extract_header_lines rest acc'

/-- Embedding of `utils.py::change_field`.  The Python function mutates
`array` in place and returns `stop - start >= len(content)`; the
embedding returns the mutated buffer paired with that Boolean.  For
`index` in `[start, stop)` the byte becomes `content[index - start]`
when that index is inside `content`, and `filler` otherwise; all other
positions keep their value.  The subtraction in the Boolean is computed
over `Int`, as in Python. -/
def change_field (array : List Nat) (start stop : Nat) (content : List Nat)
    (filler : Nat) : List Nat × Bool :=
  ((List.range array.length).map fun i =>
      if start ≤ i ∧ i < stop then
        if i - start < content.length then content.getD (i - start) 0
        else filler
      else array.getD i 0,
   decide ((content.length : Int) ≤ (stop : Int) - (start : Int)))

/-- Value of position `i` of a buffer after one optional field update
with range start `s`: untouched for the `None` sentinel, otherwise the
content byte at `i - s` or the zero filler.  This is the abstract
description used by the pointwise characterisation lemmas; it is defined
here, next to `change_field`, because the claim theorems state field
contents through it. -/
def fieldByte (c : Option (List Nat)) (s i orig : Nat) : Nat :=
  match c with
  | none => orig
  | some cc => if i - s < cc.length then cc.getD (i - s) 0 else 0

/-- The seven field arguments of `anonymise_eeg`.  Python's `None`
sentinel is `none`; a string value is its ASCII byte encoding
(`field.encode('ascii')`). -/
structure Fields where
  name : Option (List Nat)
  surname : Option (List Nat)
  birthdate : Option (List Nat)
  sex : Option (List Nat)
  folder : Option (List Nat)
  centre : Option (List Nat)
  comment : Option (List Nat)

/-- One `if field_x is not None: change_field(...)` step of
`anonymise_eeg` (filler defaults to the zero byte `b'\x00'`). -/
def applyField (h : List Nat) (start stop : Nat) (c : Option (List Nat)) :
    List Nat :=
  match c with
  | none => h
  | some cc => (change_field h start stop cc 0).1

/-- The seven sequential field updates of `utils.py::anonymise_eeg`
applied to the extracted header content, with the byte ranges hard-coded
in the source: name 314–364, surname 364–394, birthdate 394–404,
sex 404–405, folder 405–425, centre 425–464, comment 464–720. -/
def anonymise_header (h : List Nat) (f : Fields) : List Nat :=
  applyField (applyField (applyField (applyField (applyField (applyField
    (applyField h 314 364 f.name)
    364 394 f.surname)
    394 404 f.birthdate)
    404 405 f.sex)
    405 425 f.folder)
    425 464 f.centre)
    464 720 f.comment

/-- Writing the mutated header back: `file_.seek(0)` followed by writing
the header bytes one by one over the start of the destination file.  A
file shorter than the header grows to the header's length. -/
def writeHeader (file hdr : List Nat) : List Nat :=
  hdr ++ file.drop hdr.length

/-- Whole-file effect of a succeeding `anonymise_eeg` call on the bytes
of the destination that was freshly copied from the source. -/
def anonymise_file (src : List Nat) (f : Fields) : List Nat :=
  writeHeader src (anonymise_header (extract_header src) f)

/-- The filesystem: a partial map from path strings to file contents. -/
def FS : Type := String → Option (List Nat)

/-- Point update of the filesystem map. -/
def fs_update (fs : FS) (p : String) (v : Option (List Nat)) : FS :=
  fun q => if q = p then v else fs q

/-- Step `shutil.copyfile(original_file, destination_file + '.part')` of
`anonymise_eeg` (taken only when the copy succeeds, i.e. the two paths
differ). -/
def copy_part (fs : FS) (orig dest : String) : FS :=
  fs_update fs (dest ++ ".part") (fs orig)

/-- Step `os.rename(destination_file + '.part', destination_file)` of
`anonymise_eeg`. -/
def rename_part (fs : FS) (dest : String) : FS :=
  fs_update (fs_update fs dest (fs (dest ++ ".part"))) (dest ++ ".part") none

/-- Step `open(destination_file, 'rb+')`, `seek(0)`, write the header
bytes.  By the protocol the destination exists at this point. -/
def overwrite_header (fs : FS) (dest : String) (hdr : List Nat) : FS :=
  fs_update fs dest (some (writeHeader ((fs dest).getD []) hdr))

/-- Embedding of `utils.py::anonymise_eeg` as a filesystem transformer.
`none` models a raised exception: `FileNotFoundError` when the source is
missing, or `shutil.SameFileError` when the copy step would copy the
source onto itself (`original_file = destination_file + '.part'`).
Otherwise: extract the header of the source, rewrite the seven fields,
copy the source to `destination + ".part"` and rename it onto the
destination when the destination does not exist yet, and finally
overwrite the destination's leading bytes with the mutated header. -/
def anonymise_eeg (fs : FS) (orig dest : String) (f : Fields) : Option FS :=
  match fs orig with
  | none => none
  | some src =>
      let hdr := anonymise_header (extract_header src) f
      if (fs dest).isSome then
        some (overwrite_header fs dest hdr)
      else if orig = dest ++ ".part" then
        none
      else
        some (overwrite_header (rename_part (copy_part fs orig dest) dest)
          dest hdr)

/-- Python defaults of the seven field parameters of `anonymise_eeg`:
every one is the empty string `''`, whose ASCII encoding is the empty
byte string — not the `None` sentinel. -/
def default_fields : Fields :=
  ⟨some [], some [], some [], some [], some [], some [], some []⟩

/-- All seven fields set to the `None` sentinel (leave untouched). -/
def none_fields : Fields :=
  ⟨none, none, none, none, none, none, none⟩

/-- Only the name field set, all other six left untouched. -/
def name_only (c : List Nat) : Fields :=
  ⟨some c, none, none, none, none, none, none⟩

/-- ASCII encoding of a string (valid for ASCII-only strings, matching
Python's `str.encode('ascii')` on its success domain). -/
def ascii (s : String) : List Nat :=
  s.toList.map Char.toNat

/-- Embedding of `os.path.basename`: the component after the last path
separator (`/` or `\`, as on Windows where the scripts run).  Drive
letters (a `:` in the path) are not modelled; no verified input contains
one. -/
def basename (s : String) : String :=
  String.mk (s.toList.foldl
    (fun acc c => if c = '/' ∨ c = '\\' then [] else acc ++ [c]) [])

/-- The per-source match set of `utils.py::find_files`: the files of one
source whose basename starts with the basename prefix followed by an
underscore (`str.startswith`, modelled as character-list prefix). -/
def matchesOf (pre : String) (files : List String) : List String :=
  files.filter fun f => (pre ++ "_").toList.isPrefixOf (basename f).toList

/-- Embedding of `utils.py::find_files`.  `sources.values()` iterates
the dict in insertion order, so the sources are modelled as the ordered
list of their file lists; the first source with a non-empty match set
wins and the loop returns its matches, otherwise the empty list is
returned. -/
def find_files (pre : String) : List (List String) → List String
  | [] => []
  | files :: rest =>
      let m := matchesOf pre files
      if m.isEmpty then find_files pre rest else m

/-- Outcome of one `anonymise_eeg` attempt inside the batch loop of
`anonymiser.py::main`: normal return, `MemoryError`, or any other
exception. -/
inductive Outcome where
  | ok : Outcome
  | memErr : Outcome
  | otherErr : Outcome
deriving DecidableEq

/-- Per-file result recorded by the model of the batch loop:
`processed` for a file whose anonymisation returned (on the first try or
on the retry), `skippedAfterRetry` for a file whose retry raised
`MemoryError` again and was logged with `traceback.print_exc()` and
skipped. -/
inductive FileStatus where
  | processed : FileStatus
  | skippedAfterRetry : FileStatus
deriving DecidableEq

/-- Embedding of the per-file loop of `anonymiser.py::main` (lines
223–254).  `att f n` is the outcome of the `(n+1)`-th `anonymise_eeg`
call on file `f`.  The loop body is
`try: anonymise_eeg(...) except MemoryError: try: anonymise_eeg(...)
except MemoryError: traceback.print_exc()`: only `MemoryError` is ever
caught, so any other exception propagates out of `main` —
`Except.error f` models the batch aborting at file `f`. -/
def batch_loop (att : String → Nat → Outcome) :
    List String → Except String (List (String × FileStatus))
  | [] => .ok []
  | f :: rest =>
      match att f 0 with
      | .ok => (batch_loop att rest).map (fun r => (f, .processed) :: r)
      | .otherErr => .error f
      | .memErr =>
          match att f 1 with
          | .ok => (batch_loop att rest).map (fun r => (f, .processed) :: r)
          | .memErr =>
              (batch_loop att rest).map
                (fun r => (f, .skippedAfterRetry) :: r)
          | .otherErr => .error f

/-- Concrete 720-byte source file used by the witnesses. -/
def src_ex : List Nat := List.replicate 720 65

/-- Concrete one-file filesystem used by the witnesses. -/
def fs_ex : FS := fun p => if p = "in.eeg" then some src_ex else none

/-- Concrete 500-byte file used for the truncated-header analysis. -/
def file500 : List Nat := List.replicate 500 1

/-- Concrete attempt oracle where the first file raises a
non-`MemoryError` exception and every other call succeeds. -/
def att_other : String → Nat → Outcome :=
  fun f _ => if f = "a.eeg" then .otherErr else .ok

/-- Concrete attempt oracle where one file raises `MemoryError` on both
attempts and every other call succeeds. -/
def att_mem : String → Nat → Outcome :=
  fun f _ => if f = "m.eeg" then .memErr else .ok

/-! ## Pointwise characterisation of the field editor -/

theorem change_field_fst_length (a : List Nat) (s t : Nat) (c : List Nat)
    (fil : Nat) : (change_field a s t c fil).1.length = a.length := by
  simp [change_field]

theorem change_field_getD (a : List Nat) (s t : Nat) (c : List Nat)
    (fil : Nat) (i : Nat) (hi : i < a.length) :
    (change_field a s t c fil).1.getD i 0 =
      if s ≤ i ∧ i < t then
        (if i - s < c.length then c.getD (i - s) 0 else fil)
      else a.getD i 0 := by
  show ((List.range a.length).map _).getD i 0 = _
  rw [List.getD_eq_getElem?_getD, List.getElem?_map, List.getElem?_range hi]
  rfl

theorem change_field_snd (a : List Nat) (s t : Nat) (c : List Nat)
    (fil : Nat) :
    (change_field a s t c fil).2 =
      decide ((c.length : Int) ≤ (t : Int) - (s : Int)) := rfl

theorem applyField_length (h : List Nat) (s t : Nat)
    (c : Option (List Nat)) : (applyField h s t c).length = h.length := by
  cases c <;> simp [applyField, change_field_fst_length]

theorem applyField_getD (h : List Nat) (s t : Nat) (c : Option (List Nat))
    (i : Nat) (hi : i < h.length) :
    (applyField h s t c).getD i 0 =
      if s ≤ i ∧ i < t then fieldByte c s i (h.getD i 0)
      else h.getD i 0 := by
  cases c with
  | none => simp [applyField, fieldByte]
  | some cc =>
      rw [applyField, change_field_getD h s t cc 0 i hi]
      rfl

theorem anonymise_header_length (h : List Nat) (f : Fields) :
    (anonymise_header h f).length = h.length := by
  simp [anonymise_header, applyField_length]

set_option maxHeartbeats 1600000 in
theorem anonymise_header_getD (h : List Nat) (f : Fields) (i : Nat)
    (hi : i < h.length) :
    (anonymise_header h f).getD i 0 =
      if 314 ≤ i ∧ i < 364 then fieldByte f.name 314 i (h.getD i 0)
      else if 364 ≤ i ∧ i < 394 then fieldByte f.surname 364 i (h.getD i 0)
      else if 394 ≤ i ∧ i < 404 then
        fieldByte f.birthdate 394 i (h.getD i 0)
      else if 404 ≤ i ∧ i < 405 then fieldByte f.sex 404 i (h.getD i 0)
      else if 405 ≤ i ∧ i < 425 then fieldByte f.folder 405 i (h.getD i 0)
      else if 425 ≤ i ∧ i < 464 then fieldByte f.centre 425 i (h.getD i 0)
      else if 464 ≤ i ∧ i < 720 then fieldByte f.comment 464 i (h.getD i 0)
      else h.getD i 0 := by
  have L1 : (applyField h 314 364 f.name).length = h.length :=
    applyField_length _ _ _ _
  have L2 : (applyField (applyField h 314 364 f.name) 364 394
      f.surname).length = h.length := by rw [applyField_length, L1]
  have L3 : (applyField (applyField (applyField h 314 364 f.name) 364 394
      f.surname) 394 404 f.birthdate).length = h.length := by
    rw [applyField_length, L2]
  have L4 : (applyField (applyField (applyField (applyField h 314 364
      f.name) 364 394 f.surname) 394 404 f.birthdate) 404 405
      f.sex).length = h.length := by rw [applyField_length, L3]
  have L5 : (applyField (applyField (applyField (applyField (applyField h
      314 364 f.name) 364 394 f.surname) 394 404 f.birthdate) 404 405
      f.sex) 405 425 f.folder).length = h.length := by
    rw [applyField_length, L4]
  have L6 : (applyField (applyField (applyField (applyField (applyField
      (applyField h 314 364 f.name) 364 394 f.surname) 394 404
      f.birthdate) 404 405 f.sex) 405 425 f.folder) 425 464
      f.centre).length = h.length := by rw [applyField_length, L5]
  unfold anonymise_header
  rw [applyField_getD _ 464 720 f.comment i (by rw [L6]; exact hi),
    applyField_getD _ 425 464 f.centre i (by rw [L5]; exact hi),
    applyField_getD _ 405 425 f.folder i (by rw [L4]; exact hi),
    applyField_getD _ 404 405 f.sex i (by rw [L3]; exact hi),
    applyField_getD _ 394 404 f.birthdate i (by rw [L2]; exact hi),
    applyField_getD _ 364 394 f.surname i (by rw [L1]; exact hi),
    applyField_getD _ 314 364 f.name i hi]
  split_ifs <;> first | rfl | omega

theorem fieldByte_fieldByte (c : Option (List Nat)) (s i x : Nat) :
    fieldByte c s i (fieldByte c s i x) = fieldByte c s i x := by
  cases c <;> rfl

theorem list_ext_getD (l l' : List Nat) (h : l.length = l'.length)
    (h2 : ∀ i, i < l.length → l.getD i 0 = l'.getD i 0) : l = l' := by
  apply List.ext_getElem h
  intro i h1 h1'
  have h3 := h2 i h1
  rw [List.getD_eq_getElem _ _ h1, List.getD_eq_getElem _ _ h1'] at h3
  exact h3

theorem getD_append_left (l l2 : List Nat) (i : Nat) (h : i < l.length) :
    (l ++ l2).getD i 0 = l.getD i 0 := by
  rw [List.getD_eq_getElem?_getD, List.getD_eq_getElem?_getD,
    List.getElem?_append, if_pos h]

theorem getD_append_right (l l2 : List Nat) (i : Nat) (h : l.length ≤ i) :
    (l ++ l2).getD i 0 = l2.getD (i - l.length) 0 := by
  rw [List.getD_eq_getElem?_getD, List.getD_eq_getElem?_getD,
    List.getElem?_append_right h]

theorem getD_take (l : List Nat) (n i : Nat) (h : i < n) :
    (l.take n).getD i 0 = l.getD i 0 := by
  rw [List.getD_eq_getElem?_getD, List.getD_eq_getElem?_getD,
    List.getElem?_take, if_pos h]

theorem getD_drop (l : List Nat) (n i : Nat) :
    (l.drop n).getD i 0 = l.getD (n + i) 0 := by
  rw [List.getD_eq_getElem?_getD, List.getD_eq_getElem?_getD,
    List.getElem?_drop]

theorem extract_header_length (l : List Nat) :
    (extract_header l).length = min 720 l.length := by
  show (l.take 720).length = _
  rw [List.length_take]

theorem extract_header_getD (l : List Nat) (i : Nat) (h : i < 720) :
    (extract_header l).getD i 0 = l.getD i 0 :=
  getD_take l 720 i h

theorem anonymise_header_idem (h : List Nat) (f : Fields) :
    anonymise_header (anonymise_header h f) f = anonymise_header h f := by
  have hL : (anonymise_header h f).length = h.length :=
    anonymise_header_length _ _
  apply list_ext_getD _ _ (by rw [anonymise_header_length, hL])
  intro i hi
  have hi' : i < h.length := by
    rwa [anonymise_header_length, hL] at hi
  rw [anonymise_header_getD (anonymise_header h f) f i (by rw [hL]; exact hi'),
    anonymise_header_getD h f i hi']
  split_ifs <;> first | rfl | apply fieldByte_fieldByte

theorem anonymise_header_none (h : List Nat) :
    anonymise_header h none_fields = h := rfl

/-! ## Write-back lemmas -/

theorem writeHeader_idem (x h : List Nat) :
    writeHeader (writeHeader x h) h = writeHeader x h := by
  unfold writeHeader
  rw [List.drop_left]

theorem writeHeader_take (l : List Nat) (n : Nat) :
    writeHeader l (l.take n) = l := by
  unfold writeHeader
  rw [List.length_take]
  rcases Nat.le_total n l.length with h | h
  · rw [Nat.min_eq_left h, List.take_append_drop]
  · rw [Nat.min_eq_right h, List.drop_length, List.append_nil,
      List.take_of_length_le h]

theorem take_writeHeader (l hdr : List Nat)
    (h : hdr.length = min 720 l.length) :
    (writeHeader l hdr).take 720 = hdr := by
  unfold writeHeader
  rcases Nat.le_total 720 l.length with hc | hc
  · have h7 : hdr.length = 720 := by omega
    rw [← h7, List.take_left]
  · have h7 : hdr.length = l.length := by omega
    rw [h7, List.drop_length, List.append_nil]
    exact List.take_of_length_le (by omega)

theorem extract_header_anonymise_file (src : List Nat) (f : Fields) :
    extract_header (anonymise_file src f) =
      anonymise_header (extract_header src) f := by
  show (writeHeader src (anonymise_header (extract_header src) f)).take 720
    = anonymise_header (extract_header src) f
  apply take_writeHeader
  rw [anonymise_header_length]
  show (src.take 720).length = _
  rw [List.length_take]

theorem anonymise_file_idem (src : List Nat) (f : Fields) :
    anonymise_file (anonymise_file src f) f = anonymise_file src f := by
  show writeHeader (anonymise_file src f)
      (anonymise_header (extract_header (anonymise_file src f)) f) = _
  rw [extract_header_anonymise_file, anonymise_header_idem]
  exact writeHeader_idem src _

/-! ## Filesystem lemmas -/

theorem fs_update_at (fs : FS) (p : String) (v : Option (List Nat)) :
    fs_update fs p v p = v := by
  simp [fs_update]

theorem fs_update_ne (fs : FS) (p q : String) (v : Option (List Nat))
    (h : q ≠ p) : fs_update fs p v q = fs q := by
  simp [fs_update, h]

theorem fs_update_self (fs : FS) (p : String) :
    fs_update fs p (fs p) = fs := by
  funext q
  by_cases h : q = p <;> simp [fs_update, h]

theorem string_ne_append_part (s : String) : s ≠ s ++ ".part" := by
  intro h
  have h2 := congrArg String.length h
  have h5 : (".part" : String).length = 5 := rfl
  rw [String.length_append, h5] at h2
  omega

theorem rename_copy_at_dest (fs : FS) (orig dest : String) :
    rename_part (copy_part fs orig dest) dest dest = fs orig := by
  unfold rename_part copy_part
  rw [fs_update_ne _ _ _ _ (string_ne_append_part dest), fs_update_at,
    fs_update_at]

theorem rename_copy_at_part (fs : FS) (orig dest : String) :
    rename_part (copy_part fs orig dest) dest (dest ++ ".part") = none := by
  unfold rename_part
  rw [fs_update_at]

theorem rename_copy_at_other (fs : FS) (orig dest q : String)
    (h1 : q ≠ dest) (h2 : q ≠ dest ++ ".part") :
    rename_part (copy_part fs orig dest) dest q = fs q := by
  unfold rename_part copy_part
  rw [fs_update_ne _ _ _ _ h2, fs_update_ne _ _ _ _ h1,
    fs_update_ne _ _ _ _ h2]

theorem overwrite_header_at (fs : FS) (dest : String) (hdr d : List Nat)
    (h : fs dest = some d) :
    overwrite_header fs dest hdr dest = some (writeHeader d hdr) := by
  unfold overwrite_header
  rw [fs_update_at, h]
  rfl

theorem overwrite_header_ne (fs : FS) (dest q : String) (hdr : List Nat)
    (h : q ≠ dest) : overwrite_header fs dest hdr q = fs q := by
  unfold overwrite_header
  rw [fs_update_ne _ _ _ _ h]

theorem overwrite_overwrite (fs : FS) (dest : String) (hdr : List Nat) :
    overwrite_header (overwrite_header fs dest hdr) dest hdr =
      overwrite_header fs dest hdr := by
  unfold overwrite_header
  rw [fs_update_at]
  show fs_update _ dest (some (writeHeader (writeHeader _ hdr) hdr)) = _
  rw [writeHeader_idem]
  funext q
  by_cases h : q = dest <;> simp [fs_update, h]

theorem anonymise_eeg_exists_case (fs : FS) (orig dest : String)
    (f : Fields) (src : List Nat) (hsrc : fs orig = some src)
    (hdest : (fs dest).isSome) :
    anonymise_eeg fs orig dest f =
      some (overwrite_header fs dest
        (anonymise_header (extract_header src) f)) := by
  unfold anonymise_eeg
  rw [hsrc]
  simp [hdest]

theorem anonymise_eeg_fresh_case (fs : FS) (orig dest : String)
    (f : Fields) (src : List Nat) (hsrc : fs orig = some src)
    (hdest : fs dest = none) (hne : orig ≠ dest ++ ".part") :
    anonymise_eeg fs orig dest f =
      some (overwrite_header (rename_part (copy_part fs orig dest) dest)
        dest (anonymise_header (extract_header src) f)) := by
  unfold anonymise_eeg
  rw [hsrc]
  simp [hdest, hne]

theorem anonymise_eeg_none_src (fs : FS) (orig dest : String) (f : Fields)
    (h : fs orig = none) : anonymise_eeg fs orig dest f = none := by
  unfold anonymise_eeg
  rw [h]

theorem anonymise_eeg_samefile (fs : FS) (orig dest : String) (f : Fields)
    (src : List Nat) (hsrc : fs orig = some src) (hdest : fs dest = none)
    (hp : orig = dest ++ ".part") : anonymise_eeg fs orig dest f = none := by
  unfold anonymise_eeg
  rw [hsrc]
  simp [hdest, hp]

/-! ## Claim theorems -/

/-- C2: after `change_field(buffer, start, stop, content, filler)` with
`start ≤ stop ≤ len(buffer)`, each offset `i` in `[start, stop)` holds
`content[i - start]` when `i - start < len(content)` and `filler`
otherwise; no byte outside `[start, stop)` changes (and the length is
preserved); and the returned Boolean is `True` exactly when
`stop - start ≥ len(content)`, so over-long content is silently
truncated to the first `stop - start` bytes with a `False` return. -/
theorem change_field_spec (a : List Nat) (s t : Nat) (c : List Nat)
    (fil : Nat) (h1 : s ≤ t) (h2 : t ≤ a.length) :
    (change_field a s t c fil).1.length = a.length ∧
    (∀ i, s ≤ i → i < t → i - s < c.length →
      (change_field a s t c fil).1.getD i 0 = c.getD (i - s) 0) ∧
    (∀ i, s ≤ i → i < t → c.length ≤ i - s →
      (change_field a s t c fil).1.getD i 0 = fil) ∧
    (∀ i, i < a.length → ¬(s ≤ i ∧ i < t) →
      (change_field a s t c fil).1.getD i 0 = a.getD i 0) ∧
    ((change_field a s t c fil).2 = true ↔ c.length ≤ t - s) := by
  refine ⟨change_field_fst_length a s t c fil, ?_, ?_, ?_, ?_⟩
  · intro i his hit hlt
    rw [change_field_getD a s t c fil i (by omega), if_pos ⟨his, hit⟩,
      if_pos hlt]
  · intro i his hit hge
    rw [change_field_getD a s t c fil i (by omega), if_pos ⟨his, hit⟩,
      if_neg (by omega)]
  · intro i hi hout
    rw [change_field_getD a s t c fil i hi, if_neg hout]
  · rw [change_field_snd]
    simp only [decide_eq_true_eq]
    omega

/-- C2 witness: a concrete in-bounds call; byte 2 gets `content[0]`,
byte 4 (beyond the two content bytes) gets the filler, and the call
reports that the field was wide enough. -/
theorem change_field_spec_witness :
    (change_field (List.replicate 10 7) 2 5 [1, 2] 9).1.getD 4 0 = 9 ∧
    (change_field (List.replicate 10 7) 2 5 [1, 2] 9).1.getD 2 0 = 1 ∧
    (change_field (List.replicate 10 7) 2 5 [1, 2] 9).2 = true := by
  have h := change_field_spec (List.replicate 10 7) 2 5 [1, 2] 9
    (by decide) (by decide)
  exact ⟨h.2.2.1 4 (by decide) (by decide) (by decide),
    h.2.1 2 (by decide) (by decide) (by decide),
    h.2.2.2.2.mpr (by decide)⟩

/-- C6 counterexample: on a 500-byte file the header reader of
`utils.py` does not fail at all — it returns all 500 bytes, a buffer
whose length is 500, not 720; the `anonymiser.py` variant returns
`None` rather than raising.  No `TruncatedHeaderError` exists in the
code. -/
theorem extract_header_short_counterexample :
    extract_header file500 = file500 ∧
    (extract_header file500).length = 500 ∧
    (extract_header file500).length ≠ 720 ∧
    extract_header_lines [file500] [] = none := by
  have h5 : file500.length = 500 := by
    rw [file500, List.length_replicate]
  refine ⟨?_, ?_, ?_, ?_⟩
  · show file500.take 720 = file500
    exact List.take_of_length_le (by omega)
  · rw [extract_header_length, h5]
    omega
  · rw [extract_header_length, h5]
    omega
  · rw [extract_header_lines, List.nil_append, if_neg (by omega)]
    rfl

/-- C6 amended: `extract_header` never raises for an existing file; it
returns the first `min(720, length)` bytes of the file — the whole file
when it is shorter than 720 bytes (e.g. all 500 bytes of a 500-byte
file) — and the result has length exactly 720 precisely when the file
has at least 720 bytes. -/
theorem extract_header_amended (file : List Nat) :
    extract_header file = file.take 720 ∧
    (extract_header file).length = min 720 file.length ∧
    (720 ≤ file.length → (extract_header file).length = 720) ∧
    (file.length < 720 → extract_header file = file) := by
  refine ⟨rfl, extract_header_length file, ?_, ?_⟩
  · intro h
    rw [extract_header_length]
    omega
  · intro h
    show file.take 720 = file
    exact List.take_of_length_le (by omega)

/-- C6 amended witness: a file of 800 bytes yields exactly 720 header
bytes; a file of 500 bytes is returned whole. -/
theorem extract_header_amended_witness :
    (extract_header (List.replicate 800 3)).length = 720 ∧
    extract_header file500 = file500 :=
  ⟨(extract_header_amended (List.replicate 800 3)).2.2.1
      (by rw [List.length_replicate]; omega),
   (extract_header_amended file500).2.2.2
      (by rw [file500, List.length_replicate]; omega)⟩

/-- C7: `find_files` returns the match set of the first source (in the
given order) whose match set is non-empty, and the empty list when no
source matches; it never merges matches across sources.  In particular
with sources `[A = [], B = ["x_1"]]` and prefix `"x"` it returns
`["x_1"]`, and with `[A = ["x_1"], B = ["x_2"]]` it returns only
`["x_1"]`. -/
theorem find_files_spec :
    (∀ pre sources, find_files pre sources =
      (((sources.map (matchesOf pre)).find? fun l => !l.isEmpty).getD []))
    ∧ find_files "x" [[], ["x_1"]] = ["x_1"]
    ∧ find_files "x" [["x_1"], ["x_2"]] = ["x_1"]
    ∧ (∀ pre sources, (∀ fls ∈ sources, matchesOf pre fls = []) →
        find_files pre sources = []) := by
  have key : ∀ pre sources, find_files pre sources =
      (((sources.map (matchesOf pre)).find? fun l => !l.isEmpty).getD []) := by
    intro pre sources
    induction sources with
    | nil => rfl
    | cons a l ih =>
        by_cases hm : (matchesOf pre a).isEmpty
        · simp only [find_files, hm, if_true, List.map_cons,
            List.find?_cons, hm, Bool.not_true]
          exact ih
        · simp only [find_files, hm, if_false, List.map_cons,
            List.find?_cons, eq_false_of_ne_true hm, Bool.not_false]
          rfl
  refine ⟨key, by decide, by decide, ?_⟩
  intro pre sources hall
  rw [key]
  have hnone : (sources.map (matchesOf pre)).find? (fun l => !l.isEmpty)
      = none := by
    rw [List.find?_eq_none]
    intro x hx
    obtain ⟨fls, hf, hfx⟩ := List.mem_map.mp hx
    rw [← hfx, hall fls hf]
    decide
  rw [hnone]
  rfl

/-- C8 counterexample: a non-`MemoryError` exception on the very first
file of the batch is not caught by the per-file loop — the whole batch
aborts and the second file is never processed, contradicting the claim
that every other per-file error is contained to that file. -/
theorem batch_loop_counterexample :
    batch_loop att_other ["a.eeg", "b.eeg"] = .error "a.eeg" := rfl

/-- C8 amended: in the batch loop a `MemoryError` is retried exactly
once and, when the retry raises `MemoryError` again, the failure is
logged with a traceback and only that file is skipped, the batch
continuing; a successful retry processes the file; but any other
exception — on the first attempt or on the retry — is not caught and
aborts the entire batch at that file. -/
theorem batch_loop_amended (att : String → Nat → Outcome) (f : String)
    (rest : List String) :
    (att f 0 = .memErr → att f 1 = .memErr →
      batch_loop att (f :: rest) =
        (batch_loop att rest).map
          (fun r => (f, FileStatus.skippedAfterRetry) :: r)) ∧
    (att f 0 = .memErr → att f 1 = .ok →
      batch_loop att (f :: rest) =
        (batch_loop att rest).map
          (fun r => (f, FileStatus.processed) :: r)) ∧
    (att f 0 = .otherErr → batch_loop att (f :: rest) = .error f) ∧
    (att f 0 = .memErr → att f 1 = .otherErr →
      batch_loop att (f :: rest) = .error f) := by
  refine ⟨?_, ?_, ?_, ?_⟩
  · intro h1 h2
    simp [batch_loop, h1, h2]
  · intro h1 h2
    simp [batch_loop, h1, h2]
  · intro h1
    simp [batch_loop, h1]
  · intro h1 h2
    simp [batch_loop, h1, h2]

/-- C8 amended witness: a file failing with `MemoryError` twice is
skipped after exactly one retry and the next file is still processed. -/
theorem batch_loop_amended_witness :
    batch_loop att_mem ["m.eeg", "n.eeg"] =
      .ok [("m.eeg", FileStatus.skippedAfterRetry),
           ("n.eeg", FileStatus.processed)] := by
  have h := (batch_loop_amended att_mem "m.eeg" ["n.eeg"]).1 rfl rfl
  rw [h]
  rfl

/-- C1: on a fresh destination (and a well-formed source of at least 720
bytes, with the source not aliasing the temporary path), `anonymise_eeg`
is exactly the composition copy-to-`dest + ".part"`, rename onto `dest`,
then in-place header overwrite of `dest`; the mutated header buffer has
exactly `HEADER_SIZE = 720` bytes and the resulting destination content
is that buffer followed by the source bytes from offset 720 on, so every
byte at offset ≥ 720 equals the source byte.  When the destination
already exists, the copy-and-rename step is skipped and only the header
overwrite is applied. -/
theorem anonymise_eeg_protocol (fs : FS) (orig dest : String) (f : Fields)
    (src : List Nat) (hsrc : fs orig = some src)
    (hlen : 720 ≤ src.length) (hne : orig ≠ dest ++ ".part") :
    (fs dest = none →
      anonymise_eeg fs orig dest f =
        some (overwrite_header (rename_part (copy_part fs orig dest) dest)
          dest (anonymise_header (extract_header src) f)) ∧
      (anonymise_header (extract_header src) f).length = 720 ∧
      overwrite_header (rename_part (copy_part fs orig dest) dest) dest
          (anonymise_header (extract_header src) f) dest =
        some (anonymise_header (extract_header src) f ++ src.drop 720)) ∧
    ((fs dest).isSome →
      anonymise_eeg fs orig dest f =
        some (overwrite_header fs dest
          (anonymise_header (extract_header src) f))) := by
  have hh : (anonymise_header (extract_header src) f).length = 720 := by
    rw [anonymise_header_length, extract_header_length]
    omega
  constructor
  · intro hdest
    refine ⟨anonymise_eeg_fresh_case fs orig dest f src hsrc hdest hne,
      hh, ?_⟩
    rw [overwrite_header_at _ _ _ src
      ((rename_copy_at_dest fs orig dest).trans hsrc)]
    show some (anonymise_header (extract_header src) f ++
      src.drop (anonymise_header (extract_header src) f).length) = _
    rw [hh]
  · intro hdest
    exact anonymise_eeg_exists_case fs orig dest f src hsrc hdest

/-- C1 witness: the protocol evaluated on a concrete one-file filesystem
with a fresh destination. -/
theorem anonymise_eeg_protocol_witness :
    anonymise_eeg fs_ex "in.eeg" "out.eeg" default_fields =
      some (overwrite_header
        (rename_part (copy_part fs_ex "in.eeg" "out.eeg") "out.eeg")
        "out.eeg"
        (anonymise_header (extract_header src_ex) default_fields)) ∧
    (anonymise_header (extract_header src_ex) default_fields).length =
      720 :=
  ⟨((anonymise_eeg_protocol fs_ex "in.eeg" "out.eeg" default_fields src_ex
      rfl (by rw [src_ex, List.length_replicate]) (by decide)).1 rfl).1,
   ((anonymise_eeg_protocol fs_ex "in.eeg" "out.eeg" default_fields src_ex
      rfl (by rw [src_ex, List.length_replicate]) (by decide)).1 rfl).2.1⟩

/-- C3: anonymising with all seven fields set to the `None` sentinel to
a fresh destination produces a destination file byte-identical to the
source: the header written back equals the header read and the body was
copied verbatim. -/
theorem anonymise_eeg_passthrough (fs : FS) (orig dest : String)
    (src : List Nat) (hsrc : fs orig = some src) (hdest : fs dest = none)
    (hne : orig ≠ dest ++ ".part") :
    ∃ fs', anonymise_eeg fs orig dest none_fields = some fs' ∧
      fs' dest = some src := by
  refine ⟨_,
    anonymise_eeg_fresh_case fs orig dest none_fields src hsrc hdest hne,
    ?_⟩
  rw [overwrite_header_at _ _ _ src
    ((rename_copy_at_dest fs orig dest).trans hsrc)]
  rw [anonymise_header_none]
  show some (writeHeader src (src.take 720)) = some src
  rw [writeHeader_take]

/-- C3 witness: the all-sentinel passthrough on a concrete filesystem. -/
theorem anonymise_eeg_passthrough_witness :
    ∃ fs', anonymise_eeg fs_ex "in.eeg" "out.eeg" none_fields = some fs' ∧
      fs' "out.eeg" = some src_ex :=
  anonymise_eeg_passthrough fs_ex "in.eeg" "out.eeg" src_ex rfl rfl
    (by decide)

/-- C5: for a source of at least 720 bytes, anonymising with only the
name field set (to at most 50 content bytes) produces a destination
whose bytes outside `[314, 364)` — before 314 and from 364 to the end of
the file — are identical to the source, while `[314, 364)` holds the
name bytes followed by zero padding through offset 363. -/
theorem anonymise_eeg_name_isolation (fs : FS) (orig dest : String)
    (src c : List Nat) (hsrc : fs orig = some src)
    (hlen : 720 ≤ src.length) (hdest : fs dest = none)
    (hne : orig ≠ dest ++ ".part") (hc : c.length ≤ 50) :
    ∃ fs' out, anonymise_eeg fs orig dest (name_only c) = some fs' ∧
      fs' dest = some out ∧
      out.length = src.length ∧
      (∀ i, i < src.length → (i < 314 ∨ 364 ≤ i) →
        out.getD i 0 = src.getD i 0) ∧
      (∀ i, i < c.length → out.getD (314 + i) 0 = c.getD i 0) ∧
      (∀ i, 314 + c.length ≤ i → i < 364 → out.getD i 0 = 0) := by
  have hh : (anonymise_header (extract_header src)
      (name_only c)).length = 720 := by
    rw [anonymise_header_length, extract_header_length]
    omega
  refine ⟨_, writeHeader src (anonymise_header (extract_header src)
      (name_only c)),
    anonymise_eeg_fresh_case fs orig dest (name_only c) src hsrc hdest hne,
    overwrite_header_at _ _ _ src
      ((rename_copy_at_dest fs orig dest).trans hsrc),
    ?_, ?_, ?_, ?_⟩
  · show (_ ++ src.drop _).length = src.length
    rw [List.length_append, List.length_drop, hh]
    omega
  · intro i hi hrange
    show (_ ++ src.drop _).getD i 0 = src.getD i 0
    by_cases h7 : i < 720
    · rw [getD_append_left _ _ _ (by rw [hh]; exact h7),
        anonymise_header_getD _ _ i
          (by rw [extract_header_length]; omega),
        if_neg (by omega)]
      simp only [name_only, fieldByte, ite_self]
      exact extract_header_getD src i h7
    · rw [getD_append_right _ _ _ (by rw [hh]; omega), hh, getD_drop,
        Nat.add_sub_cancel' (by omega : 720 ≤ i)]
  · intro i hic
    show (_ ++ src.drop _).getD (314 + i) 0 = c.getD i 0
    rw [getD_append_left _ _ _ (by rw [hh]; omega),
      anonymise_header_getD _ _ (314 + i)
        (by rw [extract_header_length]; omega),
      if_pos (by omega : 314 ≤ 314 + i ∧ 314 + i < 364)]
    simp only [name_only, fieldByte]
    rw [Nat.add_sub_cancel_left, if_pos hic]
  · intro i h1 h2
    show (_ ++ src.drop _).getD i 0 = 0
    rw [getD_append_left _ _ _ (by rw [hh]; omega),
      anonymise_header_getD _ _ i
        (by rw [extract_header_length]; omega),
      if_pos (by omega : 314 ≤ i ∧ i < 364)]
    simp only [name_only, fieldByte]
    rw [if_neg (by omega)]

/-- C5 witness: on a concrete 720-byte source, setting the name to the
ASCII bytes of "ANON" puts byte `'A'` at offset 314, a zero byte at
offset 320 (inside the padded remainder of the name field), and leaves
offset 400 equal to the source byte. -/
theorem anonymise_eeg_name_isolation_witness :
    ∃ fs' out,
      anonymise_eeg fs_ex "in.eeg" "out.eeg" (name_only (ascii "ANON")) =
        some fs' ∧
      fs' "out.eeg" = some out ∧
      out.getD (314 + 0) 0 = (ascii "ANON").getD 0 0 ∧
      out.getD 320 0 = 0 ∧
      out.getD 400 0 = src_ex.getD 400 0 := by
  obtain ⟨fs', out, h1, h2, h3, h4, h5, h6⟩ :=
    anonymise_eeg_name_isolation fs_ex "in.eeg" "out.eeg" src_ex
      (ascii "ANON") rfl (by rw [src_ex, List.length_replicate])
      rfl (by decide) (by decide)
  refine ⟨fs', out, h1, h2, h5 0 (by decide), h6 320 (by decide)
    (by decide), h4 400 ?_ (by decide)⟩
  rw [src_ex, List.length_replicate]
  omega

/-- C9: the defaults of the seven field parameters are all the empty
string (not the `None` sentinel), so `anonymise_eeg(original, dest)`
with every field argument left at its default blanks the whole header
region `[314, 720)` to zero bytes while keeping bytes before 314 and
from 720 on equal to the source. -/
theorem anonymise_eeg_default_blanks (fs : FS) (orig dest : String)
    (src : List Nat) (hsrc : fs orig = some src)
    (hlen : 720 ≤ src.length) (hdest : fs dest = none)
    (hne : orig ≠ dest ++ ".part") :
    ∃ fs' out, anonymise_eeg fs orig dest default_fields = some fs' ∧
      fs' dest = some out ∧
      out.length = src.length ∧
      (∀ i, 314 ≤ i → i < 720 → out.getD i 0 = 0) ∧
      (∀ i, i < 314 → out.getD i 0 = src.getD i 0) ∧
      (∀ i, 720 ≤ i → i < src.length → out.getD i 0 = src.getD i 0) := by
  have hh : (anonymise_header (extract_header src)
      default_fields).length = 720 := by
    rw [anonymise_header_length, extract_header_length]
    omega
  refine ⟨_, writeHeader src (anonymise_header (extract_header src)
      default_fields),
    anonymise_eeg_fresh_case fs orig dest default_fields src hsrc hdest
      hne,
    overwrite_header_at _ _ _ src
      ((rename_copy_at_dest fs orig dest).trans hsrc),
    ?_, ?_, ?_, ?_⟩
  · show (_ ++ src.drop _).length = src.length
    rw [List.length_append, List.length_drop, hh]
    omega
  · intro i h1 h2
    show (_ ++ src.drop _).getD i 0 = 0
    rw [getD_append_left _ _ _ (by rw [hh]; exact h2),
      anonymise_header_getD _ _ i
        (by rw [extract_header_length]; omega)]
    simp only [default_fields, fieldByte, List.length_nil,
      Nat.not_lt_zero, if_false]
    split_ifs <;> first | rfl | omega
  · intro i h1
    show (_ ++ src.drop _).getD i 0 = src.getD i 0
    rw [getD_append_left _ _ _ (by rw [hh]; omega),
      anonymise_header_getD _ _ i
        (by rw [extract_header_length]; omega)]
    split_ifs <;> first | omega | exact extract_header_getD src i (by omega)
  · intro i h1 h2
    show (_ ++ src.drop _).getD i 0 = src.getD i 0
    rw [getD_append_right _ _ _ (by rw [hh]; omega), hh, getD_drop,
      Nat.add_sub_cancel' (by omega : 720 ≤ i)]

/-- C9 witness: with all field arguments left at their defaults, the
concrete destination holds a zero byte throughout `[314, 720)` (checked
at offsets 314, 500 and 719) and the source byte at offset 100. -/
theorem anonymise_eeg_default_blanks_witness :
    ∃ fs' out,
      anonymise_eeg fs_ex "in.eeg" "out.eeg" default_fields = some fs' ∧
      fs' "out.eeg" = some out ∧
      out.getD 314 0 = 0 ∧ out.getD 500 0 = 0 ∧ out.getD 719 0 = 0 ∧
      out.getD 100 0 = src_ex.getD 100 0 := by
  obtain ⟨fs', out, h1, h2, h3, h4, h5, h6⟩ :=
    anonymise_eeg_default_blanks fs_ex "in.eeg" "out.eeg" src_ex rfl
      (by rw [src_ex, List.length_replicate]) rfl (by decide)
  exact ⟨fs', out, h1, h2, h4 314 (by decide) (by decide),
    h4 500 (by decide) (by decide), h4 719 (by decide) (by decide),
    h5 100 (by decide)⟩

/-- C10: a succeeding `anonymise_eeg` call with a destination path
different from the source path leaves the source file byte-for-byte
unchanged: only `dest + ".part"` and `dest` are ever written. -/
theorem anonymise_eeg_source_frame (fs : FS) (orig dest : String)
    (f : Fields) (fs' : FS) (hne : orig ≠ dest)
    (hrun : anonymise_eeg fs orig dest f = some fs') :
    fs' orig = fs orig := by
  cases hsrc : fs orig with
  | none =>
      rw [anonymise_eeg_none_src fs orig dest f hsrc] at hrun
      cases hrun
  | some src =>
      by_cases hd : (fs dest).isSome
      · rw [anonymise_eeg_exists_case fs orig dest f src hsrc hd] at hrun
        rw [← Option.some.inj hrun,
          overwrite_header_ne _ _ _ _ hne, hsrc]
      · have hdn : fs dest = none := Option.not_isSome_iff_eq_none.mp hd
        by_cases hp : orig = dest ++ ".part"
        · rw [anonymise_eeg_samefile fs orig dest f src hsrc hdn hp]
            at hrun
          cases hrun
        · rw [anonymise_eeg_fresh_case fs orig dest f src hsrc hdn hp]
            at hrun
          rw [← Option.some.inj hrun, overwrite_header_ne _ _ _ _ hne,
            rename_copy_at_other _ _ _ _ hne hp, hsrc]

/-- C4: anonymisation is idempotent on rewrite — when a first
`anonymise_eeg` call succeeds and produces filesystem `fs1`, running the
exact same call again on `fs1` succeeds and leaves the whole filesystem
(in particular the destination file) byte-identical to `fs1`: the second
run skips the copy step because the destination exists and the header
overwrite writes the same bytes. -/
theorem anonymise_eeg_idem (fs : FS) (orig dest : String) (f : Fields)
    (fs1 : FS) (h1 : anonymise_eeg fs orig dest f = some fs1) :
    anonymise_eeg fs1 orig dest f = some fs1 := by
  cases hsrc : fs orig with
  | none =>
      rw [anonymise_eeg_none_src fs orig dest f hsrc] at h1
      cases h1
  | some src =>
      by_cases hd : (fs dest).isSome
      · -- the destination already existed: only the header was rewritten
        rw [anonymise_eeg_exists_case fs orig dest f src hsrc hd] at h1
        have hfs1 : fs1 = overwrite_header fs dest
            (anonymise_header (extract_header src) f) :=
          (Option.some.inj h1).symm
        by_cases ho : orig = dest
        · -- in-place anonymisation: the second run reads back the
          -- rewritten file, whose header re-anonymises to itself
          subst ho
          have hfs1o : fs1 orig = some (anonymise_file src f) := by
            rw [hfs1]
            exact overwrite_header_at fs orig _ src hsrc
          rw [anonymise_eeg_exists_case fs1 orig orig f
            (anonymise_file src f) hfs1o (by rw [hfs1o]; rfl)]
          rw [extract_header_anonymise_file, anonymise_header_idem, hfs1,
            overwrite_overwrite]
        · have hfs1o : fs1 orig = some src := by
            rw [hfs1, overwrite_header_ne _ _ _ _ ho, hsrc]
          have hfs1d : (fs1 dest).isSome := by
            rw [hfs1]
            unfold overwrite_header
            rw [fs_update_at]
            rfl
          rw [anonymise_eeg_exists_case fs1 orig dest f src hfs1o hfs1d,
            hfs1, overwrite_overwrite]
      · -- fresh destination on the first run
        have hdn : fs dest = none := Option.not_isSome_iff_eq_none.mp hd
        by_cases hp : orig = dest ++ ".part"
        · rw [anonymise_eeg_samefile fs orig dest f src hsrc hdn hp] at h1
          cases h1
        · rw [anonymise_eeg_fresh_case fs orig dest f src hsrc hdn hp]
            at h1
          have hfs1 : fs1 = overwrite_header
              (rename_part (copy_part fs orig dest) dest) dest
              (anonymise_header (extract_header src) f) :=
            (Option.some.inj h1).symm
          have hod : orig ≠ dest := by
            intro he
            rw [he, hdn] at hsrc
            cases hsrc
          have hfs1o : fs1 orig = some src := by
            rw [hfs1, overwrite_header_ne _ _ _ _ hod,
              rename_copy_at_other _ _ _ _ hod hp, hsrc]
          have hfs1d : (fs1 dest).isSome := by
            rw [hfs1]
            unfold overwrite_header
            rw [fs_update_at]
            rfl
          rw [anonymise_eeg_exists_case fs1 orig dest f src hfs1o hfs1d,
            hfs1, overwrite_overwrite]

/-- C4 witness: running the concrete anonymisation twice yields exactly
the state after running it once. -/
theorem anonymise_eeg_idem_witness :
    ∃ fs1, anonymise_eeg fs_ex "in.eeg" "out.eeg" default_fields =
      some fs1 ∧
      anonymise_eeg fs1 "in.eeg" "out.eeg" default_fields = some fs1 := by
  have hrun := anonymise_eeg_fresh_case fs_ex "in.eeg" "out.eeg"
    default_fields src_ex rfl rfl (by decide)
  exact ⟨_, hrun,
    anonymise_eeg_idem fs_ex "in.eeg" "out.eeg" default_fields _ hrun⟩

/-- C10 witness: on the concrete filesystem the source file still holds
its original bytes after anonymisation to a different path. -/
theorem anonymise_eeg_source_frame_witness :
    ∃ fs', anonymise_eeg fs_ex "in.eeg" "out.eeg" default_fields =
      some fs' ∧ fs' "in.eeg" = fs_ex "in.eeg" := by
  have hrun := anonymise_eeg_fresh_case fs_ex "in.eeg" "out.eeg"
    default_fields src_ex rfl rfl (by decide)
  exact ⟨_, hrun, anonymise_eeg_source_frame fs_ex "in.eeg" "out.eeg"
    default_fields _ (by decide) hrun⟩

end Deltamed
